import Mathlib

/-!
Verification of the railway platform display scheduling core (`src/app.js`).

The JavaScript core is shallowly embedded: minute-of-day values and the
virtual clock are modelled as `Int` (the claims under scrutiny concern
integer minute values), the per-platform `-Infinity`-initialised free-at
array is modelled by the two-constructor type `FreeAt`, and the stateful
store is modelled by explicit state passing over the `Store` structure.
`Array.prototype.sort` with a numeric key comparator is a stable ascending
sort, modelled here by a stable insertion sort (`sortByKey`).  JavaScript's
`%` (truncating remainder) is `Int.tmod` and `Math.floor` division is
`Int.fdiv`.
-/

/-- `pad2` embeds `String(n).padStart(2, "0")`. -/
def pad2 (n : Int) : String :=
  let s := toString n
  (List.replicate (2 - s.length) '0').asString ++ s

/-- `toHHMM` embeds the source: normalise by `((minutes % 1440) + 1440) % 1440`
(JavaScript `%` is truncating remainder, `Int.tmod`), then format with
`Math.floor(m / 60)` (`Int.fdiv`) and `m % 60`. -/
def toHHMM (minutes : Int) : String :=
  let m := Int.tmod (Int.tmod minutes (24 * 60) + 24 * 60) (24 * 60)
  let h := Int.fdiv m 60
  let mm := Int.tmod m 60
  pad2 h ++ ":" ++ pad2 mm

/-- `split(":")` of the source, over the character list. -/
def splitOnColon : List Char → List (List Char)
  | [] => [[]]
  | c :: rest =>
    match splitOnColon rest with
    | [] => [[c]]
    | g :: gs => if c = ':' then [] :: g :: gs else (c :: g) :: gs

/-- Accumulate the value of the leading digit run, stopping at the first
non-digit, as `parseInt(x, 10)` does. -/
def digitsVal : List Char → Nat → Nat
  | [], acc => acc
  | c :: rest, acc =>
    if '0' ≤ c ∧ c ≤ '9' then digitsVal rest (acc * 10 + (c.toNat - '0'.toNat)) else acc

/-- `parseInt(x, 10)` of the source on a time part: the value of the leading
digit run, or `NaN` (modelled `none`) when the part does not start with a
digit.  Sign and whitespace handling of `parseInt` are not modelled; the
parts fed to it here are digit runs. -/
def parseIntJs (cs : List Char) : Option Int :=
  match cs with
  | c :: _ => if '0' ≤ c ∧ c ≤ '9' then some (Int.ofNat (digitsVal cs 0)) else none
  | [] => none

/-- `toMinutes` embeds the source: a number is returned as is; an `"HH:MM"`
string is split on `":"` and parsed as `h * 60 + m` from the first two parts.
A part that fails to parse is JavaScript `NaN`, modelled as `none`; a string
with no `":"` leaves `m` `undefined`, which also yields `NaN`. -/
def toMinutes : Int ⊕ String → Option Int
  | Sum.inl n => some n
  | Sum.inr s =>
    match splitOnColon s.data with
    | hs :: ms :: _ =>
      match parseIntJs hs, parseIntJs ms with
      | some h, some m => some (h * 60 + m)
      | _, _ => none
    | _ => none

/-- The lifecycle `Status` enum of the source. -/
inductive Status where
  | ON_TIME
  | DELAYED
  | BOARDING
  | DEPARTED
  | ARRIVED
  | CANCELLED
deriving DecidableEq, Repr

/-- A train record, as documented in the source.  `platform` is the optional
manually requested platform; `assignedPlatform` is the derived platform
written by `assignPlatforms` (absent before the first assignment pass). -/
structure Train where
  id : String
  trainNo : String
  «from» : String
  «to» : String
  arrive : Int
  depart : Int
  delayMin : Int
  status : Status
  platform : Option Int
  assignedPlatform : Option Int
deriving DecidableEq, Repr

/-- `timeWithDelay` embeds the source: the effective window is shifted by
`delayMin` exactly when the current status is `DELAYED`. -/
def timeWithDelay (t : Train) : Int × Int :=
  if t.status = Status.DELAYED then (t.arrive + t.delayMin, t.depart + t.delayMin)
  else (t.arrive, t.depart)

/-- Effective arrival minute of a train. -/
def effArrive (t : Train) : Int := (timeWithDelay t).1

/-- Effective departure minute of a train. -/
def effDepart (t : Train) : Int := (timeWithDelay t).2

/-- `intervalsOverlap` embeds the open-interval overlap test of the source. -/
def intervalsOverlap (aStart aEnd bStart bEnd : Int) : Bool :=
  decide (aStart < bEnd) && decide (bStart < aEnd)

/-- `clamp` from the source: `Math.max(lo, Math.min(hi, n))`. -/
def clampInt (n lo hi : Int) : Int := max lo (min hi n)

/-- One entry of the `platformEnd` array of the source, which is initialised
with `-Infinity` and otherwise holds finite departure minutes. -/
inductive FreeAt where
  | negInf
  | fin (e : Int)
deriving DecidableEq, Repr

/-- `platformEnd[i] <= a` of the source (`-Infinity <= a` is true). -/
def FreeAt.leInt : FreeAt → Int → Bool
  | .negInf, _ => true
  | .fin e, a => decide (e ≤ a)

/-- `platformEnd[i] < bestEnd` of the source. -/
def FreeAt.ltF : FreeAt → FreeAt → Bool
  | _, .negInf => false
  | .negInf, .fin _ => true
  | .fin x, .fin y => decide (x < y)

/-- `Math.max(platformEnd[assigned], d)` of the source. -/
def FreeAt.maxI : FreeAt → Int → FreeAt
  | .negInf, d => .fin d
  | .fin e, d => .fin (max e d)

/-- Stable insertion into an ascending-by-key list: the inserted element goes
before the first element of strictly greater or equal position, after the
elements of strictly smaller key, preserving the relative order of equal
keys. -/
def insertKey (key : Train → Int) (t : Train) : List Train → List Train
  | [] => [t]
  | u :: rest => if key u < key t then u :: insertKey key t rest else t :: u :: rest

/-- Stable ascending sort by `key`, modelling `Array.prototype.sort` with the
numeric comparator `(a, b) => key(a) - key(b)` (stable per the spec of
`Array.prototype.sort`). -/
def sortByKey (key : Train → Int) : List Train → List Train
  | [] => []
  | t :: rest => insertKey key t (sortByKey key rest)

/-- Pair every element with its position, modelling the object-identity test
`o !== tr` of the source by positional identity. -/
def withIdx : Nat → List Train → List (Nat × Train)
  | _, [] => []
  | i, t :: rest => (i, t) :: withIdx (i + 1) rest

/-- The manual-request conflict test of the source: some other train (object
identity, modelled by position `i`) has the same manual platform request and
an overlapping effective window. -/
def manualConflict (es : List (Nat × Train)) (i : Nat) (tr : Train) : Bool :=
  es.any fun jo =>
    !(jo.1 == i) && (jo.2.platform == tr.platform) &&
      intervalsOverlap (effArrive jo.2) (effDepart jo.2) (effArrive tr) (effDepart tr)

/-- The first-free-platform search of the source: the first index `i` with
`platformEnd[i] <= arrive`, counting from `i`. -/
def findFreeIdx : List FreeAt → Int → Nat → Option Nat
  | [], _, _ => none
  | e :: rest, a, i => if e.leInt a then some i else findFreeIdx rest a (i + 1)

/-- The earliest-free-platform fallback scan of the source, starting from
`best`/`bestEnd` and advancing on strict `<` (ties keep the lowest index). -/
def argminAux : List FreeAt → Nat → Nat → FreeAt → Nat
  | [], _, best, _ => best
  | e :: rest, i, best, bestEnd =>
    if e.ltF bestEnd then argminAux rest (i + 1) i e
    else argminAux rest (i + 1) best bestEnd

/-- `best = 0; bestEnd = platformEnd[0]; for (i = 1; ...)` of the source. -/
def argminIdx : List FreeAt → Nat
  | [] => 0
  | e :: rest => argminAux rest 1 0 e

/-- `platformEnd[assigned] = Math.max(platformEnd[assigned], twd.depart)`. -/
def updateFree (pe : List FreeAt) (idx : Nat) (d : Int) : List FreeAt :=
  pe.set idx ((pe.getD idx FreeAt.negInf).maxI d)

/-- The automatic choice of the source: the first platform with
`platformEnd[i] <= arrive`, falling back to the earliest-freeing platform.
The source also contains a loop before this search that computes nothing
observable (its body is empty); it reads `platformEnd` but has no effect and
is omitted. -/
def autoIdx (pe : List FreeAt) (a : Int) : Nat :=
  match findFreeIdx pe a 0 with
  | some p => p
  | none => argminIdx pe

/-- The platform index (0-based) chosen for the train at position `i`:
a conflict-free manual request is honoured directly (clamped into range,
without consulting `platformEnd`); otherwise the automatic search runs. -/
def chooseIdx (numPlatforms : Nat) (es : List (Nat × Train)) (i : Nat) (tr : Train)
    (pe : List FreeAt) : Nat :=
  match tr.platform with
  | some pv =>
    if manualConflict es i tr then autoIdx pe (effArrive tr)
    else (clampInt pv 1 (numPlatforms : Int) - 1).toNat
  | none => autoIdx pe (effArrive tr)

/-- The main loop of `assignPlatforms`, threading the `platformEnd` array.
`es` is the whole sorted, position-tagged train list used by the conflict
test; the second component of the result is the final `platformEnd`.  After
every choice — the manual-honour path included — the source runs
`platformEnd[assigned] = Math.max(platformEnd[assigned], twd.depart)` and
records `assigned + 1` on the train. -/
def assignLoop (numPlatforms : Nat) (es : List (Nat × Train)) :
    List (Nat × Train) → List FreeAt → List Train × List FreeAt
  | [], pe => ([], pe)
  | (i, tr) :: rest, pe =>
    let assigned := chooseIdx numPlatforms es i tr pe
    let pe2 := updateFree pe assigned (effDepart tr)
    let res := assignLoop numPlatforms es rest pe2
    ({ tr with assignedPlatform := some ((assigned : Int) + 1) } :: res.1, res.2)

/-- `assignPlatforms` of the source, additionally exposing the final
`platformEnd` array: sort by effective arrival, then run the greedy loop over
a `platformEnd` array of `numPlatforms` entries initialised to `-Infinity`. -/
def assignPlatformsFull (trains : List Train) (numPlatforms : Nat) :
    List Train × List FreeAt :=
  let sorted := sortByKey effArrive trains
  assignLoop numPlatforms (withIdx 0 sorted) (withIdx 0 sorted)
    (List.replicate numPlatforms FreeAt.negInf)

/-- `assignPlatforms` of the source: the returned (sorted) train list with
`assignedPlatform` populated. -/
def assignPlatforms (trains : List Train) (numPlatforms : Nat) : List Train :=
  (assignPlatformsFull trains numPlatforms).1

/-- The status derivation of `computeDerived` for a single train: `CANCELLED`
is skipped (`continue`), otherwise the five-way priority cascade runs on the
effective window. -/
def deriveStatus (vm : Int) (tr : Train) : Train :=
  if tr.status = Status.CANCELLED then tr
  else
    let a := effArrive tr
    let d := effDepart tr
    let st :=
      if vm ≥ d + 5 then Status.DEPARTED
      else if vm ≥ d - 5 ∧ vm < d + 5 then Status.BOARDING
      else if vm ≥ a ∧ vm < d - 5 then Status.ARRIVED
      else if tr.delayMin > 0 then Status.DELAYED
      else Status.ON_TIME
    { tr with status := st }

/-- `computeDerived` of the source: derive every status from the virtual
minute, run the platform assignment (which writes `assignedPlatform` on the
shared records), then sort for display by effective departure.  The source
mutates the records in place and display-sorts the original-order list; the
model display-sorts the assignment's output, which holds the same records. -/
def computeDerived (vm : Int) (numPlatforms : Nat) (trains : List Train) : List Train :=
  sortByKey effDepart (assignPlatforms (trains.map (deriveStatus vm)) numPlatforms)

/-- The store state the claims touch: train list, announcement log and the
settings (platform count and the simulation fields of the source). -/
structure Store where
  trains : List Train
  announcements : List String
  numPlatforms : Nat
  virtualMinutes : Int
  autoAdvance : Bool
  speed : Int
deriving DecidableEq, Repr

/-- `announce` of the source: prefix the virtual timestamp, prepend, and keep
the newest 6 entries. -/
def announce (st : Store) (message : String) : Store :=
  { st with
    announcements :=
      List.take 6 (("[" ++ toHHMM st.virtualMinutes ++ "] " ++ message) :: st.announcements) }

/-- The store-visible effect of `renderAll`: a full recomputation pass
(`computeDerived`); rendering and persistence are external collaborators. -/
def renderAll (st : Store) : Store :=
  { st with trains := computeDerived st.virtualMinutes st.numPlatforms st.trains }

/-- `state.trains.find((t) => t.id === id)` of the source. -/
def findTrain (trains : List Train) (id : String) : Option Train :=
  trains.find? (fun t => t.id == id)

/-- Apply `f` to the first element satisfying `p`, modelling in-place mutation
of the record found by `find`. -/
def updateFirst (p : Train → Bool) (f : Train → Train) : List Train → List Train
  | [] => []
  | t :: rest => if p t then f t :: rest else t :: updateFirst p f rest

/-- `updateTrain` of the source: a silent no-op when the id is unknown;
otherwise merge the updates (`Object.assign`, modelled by the merge function
`f`), announce, and recompute. -/
def updateTrain (st : Store) (id : String) (f : Train → Train) : Store :=
  match findTrain st.trains id with
  | none => st
  | some tr =>
    let st2 := { st with trains := updateFirst (fun t => t.id == id) f st.trains }
    renderAll (announce st2 ("Train " ++ (f tr).trainNo ++ " updated."))

/-- `delayTrain` of the source: a silent no-op when the id is unknown;
otherwise add to `delayMin`, force `DELAYED`, announce, and recompute. -/
def delayTrain (st : Store) (id : String) (minutes : Int) : Store :=
  match findTrain st.trains id with
  | none => st
  | some tr =>
    let st2 := { st with
      trains := updateFirst (fun t => t.id == id)
        (fun t => { t with delayMin := t.delayMin + minutes, status := Status.DELAYED })
        st.trains }
    renderAll (announce st2
      ("Train " ++ tr.trainNo ++ " delayed by " ++ toString minutes ++ " minutes."))

/-- `cancelTrain` of the source: a silent no-op when the id is unknown;
otherwise set `CANCELLED`, announce, and recompute. -/
def cancelTrain (st : Store) (id : String) : Store :=
  match findTrain st.trains id with
  | none => st
  | some tr =>
    let st2 := { st with
      trains := updateFirst (fun t => t.id == id)
        (fun t => { t with status := Status.CANCELLED }) st.trains }
    renderAll (announce st2 ("Train " ++ tr.trainNo ++ " has been cancelled."))

/-- `clearAll` of the source: empty both lists, then announce the clearing and
recompute. -/
def clearAll (st : Store) : Store :=
  renderAll (announce { st with trains := [], announcements := [] } "All trains cleared.")

/-- Forget the derived platform, for frame statements. -/
def eraseAssigned (t : Train) : Train := { t with assignedPlatform := none }

/-- Spec-side definition (for the refinement claim C2), following the spec's
words: the effective window is `[arrive+delay, depart+delay]` while status is
`DELAYED`, else `[arrive, depart]`. -/
def specEffectiveWindow (tr : Train) : Int × Int :=
  if tr.status = Status.DELAYED then (tr.arrive + tr.delayMin, tr.depart + tr.delayMin)
  else (tr.arrive, tr.depart)

/-- Spec-side definition (for the refinement claim C2), following the spec's
words: first-match priority `DEPARTED` if `vm ≥ d+5`; else `BOARDING` if
`d-5 ≤ vm < d+5`; else `ARRIVED` if `a ≤ vm < d-5`; else `DELAYED` if the
accumulated delay is positive; else `ON_TIME`. -/
def specStatusRule (vm a d delayMin : Int) : Status :=
  if vm ≥ d + 5 then Status.DEPARTED
  else if d - 5 ≤ vm ∧ vm < d + 5 then Status.BOARDING
  else if a ≤ vm ∧ vm < d - 5 then Status.ARRIVED
  else if delayMin > 0 then Status.DELAYED
  else Status.ON_TIME

/-- A concrete train record for witnesses and counterexamples. -/
def sampleTrain (idStr noStr : String) (st : Status) (pl : Option Int)
    (arr dep delay : Int) : Train :=
  { id := idStr, trainNo := noStr, «from» := "Central", «to» := "Harbor",
    arrive := arr, depart := dep, delayMin := delay, status := st,
    platform := pl, assignedPlatform := none }

/-- A concrete store for witnesses and counterexamples. -/
def sampleStore (ts : List Train) (ann : List String) : Store :=
  { trains := ts, announcements := ann, numPlatforms := 6,
    virtualMinutes := 480, autoAdvance := true, speed := 1 }

/-! ## Helper lemmas -/

/-- The source's double truncating modulo agrees with the Euclidean remainder,
hence lands in `[0, 1440)`. -/
theorem tmod_double_norm (n : Int) :
    Int.tmod (Int.tmod n (24 * 60) + 24 * 60) (24 * 60) = n % (24 * 60) := by
  have hub := Int.tmod_lt_of_pos n (b := 24 * 60) (by norm_num)
  have hlow : -(24 * 60) < Int.tmod n (24 * 60) := by
    rcases Int.le_total 0 n with h | h
    · have := Int.tmod_nonneg (a := n) (24 * 60) h
      omega
    · have h1 : Int.tmod n (24 * 60) = -Int.tmod (-n) (24 * 60) := by
        rw [Int.tmod_def, Int.tmod_def, Int.neg_tdiv]
        ring
      have h2 := Int.tmod_lt_of_pos (-n) (b := 24 * 60) (by norm_num)
      omega
  have hdef := Int.tmod_def n (24 * 60)
  rw [Int.tmod_eq_emod (by omega) (by norm_num)]
  omega

/-- `pad2` of a small nonnegative integer has exactly two characters. -/
theorem pad2_length_two (n : Int) (h0 : 0 ≤ n) (h : n < 100) : (pad2 n).length = 2 := by
  have hn : ∀ k : Nat, k < 100 → (pad2 (Int.ofNat k)).length = 2 := by decide
  have h2 : n = Int.ofNat n.toNat := (Int.toNat_of_nonneg h0).symm
  rw [h2]
  exact hn n.toNat (by omega)

/-- `toHHMM` always produces a five-character `HH:MM` string. -/
theorem toHHMM_length (n : Int) : (toHHMM n).length = 5 := by
  have hm := tmod_double_norm n
  have hb0 : 0 ≤ n % (24 * 60) := Int.emod_nonneg n (by norm_num)
  have hb1 : n % (24 * 60) < 24 * 60 := Int.emod_lt_of_pos n (by norm_num)
  show (pad2 (Int.fdiv (Int.tmod (Int.tmod n (24 * 60) + 24 * 60) (24 * 60)) 60) ++ ":" ++
      pad2 (Int.tmod (Int.tmod (Int.tmod n (24 * 60) + 24 * 60) (24 * 60)) 60)).length = 5
  rw [hm, Int.fdiv_eq_ediv _ (by norm_num), Int.tmod_eq_emod hb0 (by norm_num)]
  rw [String.length_append, String.length_append]
  rw [pad2_length_two _ (by omega) (by omega), pad2_length_two _ (by omega) (by omega)]
  rfl

/-- Stable insertion is a permutation of consing. -/
theorem insertKey_perm (key : Train → Int) (t : Train) :
    ∀ l : List Train, (insertKey key t l).Perm (t :: l)
  | [] => List.Perm.refl _
  | u :: rest => by
    unfold insertKey
    split
    · exact ((insertKey_perm key t rest).cons u).trans (List.Perm.swap t u rest)
    · exact List.Perm.refl _

/-- The display sort is a permutation of its input. -/
theorem sortByKey_perm (key : Train → Int) :
    ∀ l : List Train, (sortByKey key l).Perm l
  | [] => List.Perm.refl _
  | t :: rest =>
    (insertKey_perm key t (sortByKey key rest)).trans ((sortByKey_perm key rest).cons t)

/-- Dropping the position tags recovers the list. -/
theorem withIdx_map_snd : ∀ (i : Nat) (l : List Train), (withIdx i l).map Prod.snd = l
  | _, [] => rfl
  | i, t :: rest => by simp [withIdx, withIdx_map_snd (i + 1) rest]

/-- The assignment loop changes nothing but `assignedPlatform`. -/
theorem assignLoop_erase (N : Nat) (es : List (Nat × Train)) :
    ∀ (l : List (Nat × Train)) (pe : List FreeAt),
      ((assignLoop N es l pe).1).map eraseAssigned = (l.map Prod.snd).map eraseAssigned
  | [], pe => rfl
  | (i, tr) :: rest, pe => by
    simp only [assignLoop, List.map_cons]
    rw [assignLoop_erase N es rest]
    rfl

/-- A successful first-free search returns an index below `i + length`. -/
theorem findFreeIdx_lt (a : Int) :
    ∀ (l : List FreeAt) (i j : Nat), findFreeIdx l a i = some j → j < i + l.length
  | [], i, j, h => by simp [findFreeIdx] at h
  | e :: rest, i, j, h => by
    unfold findFreeIdx at h
    split at h
    · simp only [Option.some.injEq] at h
      simp only [List.length_cons]
      omega
    · have := findFreeIdx_lt a rest (i + 1) j h
      simp only [List.length_cons]
      omega

/-- The fallback scan never leaves the already-scanned range. -/
theorem argminAux_lt :
    ∀ (l : List FreeAt) (i best : Nat) (bestEnd : FreeAt), best < i →
      argminAux l i best bestEnd < i + l.length
  | [], i, best, bestEnd, h => by simpa [argminAux] using h
  | e :: rest, i, best, bestEnd, h => by
    unfold argminAux
    split
    · have := argminAux_lt rest (i + 1) i e (by omega)
      simp only [List.length_cons]
      omega
    · have := argminAux_lt rest (i + 1) best bestEnd (by omega)
      simp only [List.length_cons]
      omega

/-- The fallback scan returns a valid index of a nonempty array. -/
theorem argminIdx_lt : ∀ l : List FreeAt, l ≠ [] → argminIdx l < l.length
  | [], h => absurd rfl h
  | e :: rest, _ => by
    have := argminAux_lt rest 1 0 e (by omega)
    simp only [argminIdx, List.length_cons]
    omega

/-- Updating a free-at entry keeps the array length. -/
theorem updateFree_length (pe : List FreeAt) (k : Nat) (d : Int) :
    (updateFree pe k d).length = pe.length := by
  simp [updateFree]

/-- The automatic choice returns a valid index of a nonempty array. -/
theorem autoIdx_lt (pe : List FreeAt) (a : Int) (h : pe ≠ []) : autoIdx pe a < pe.length := by
  unfold autoIdx
  split
  · next j hj => simpa using findFreeIdx_lt a pe 0 j hj
  · exact argminIdx_lt pe h

/-- The clamp stays inside its (ordered) bounds. -/
theorem clampInt_mem (n lo hi : Int) (h : lo ≤ hi) :
    lo ≤ clampInt n lo hi ∧ clampInt n lo hi ≤ hi :=
  ⟨le_max_left _ _, max_le h (min_le_left _ _)⟩

/-- Every chosen platform index is valid when at least one platform exists. -/
theorem chooseIdx_lt (N : Nat) (es : List (Nat × Train)) (i : Nat) (tr : Train)
    (pe : List FreeAt) (hpe : pe.length = N) (hN : 1 ≤ N) :
    chooseIdx N es i tr pe < N := by
  have hne : pe ≠ [] := by
    intro h
    rw [h] at hpe
    simp at hpe
    omega
  unfold chooseIdx
  split
  · next pv hp =>
    split
    · rw [← hpe]
      exact autoIdx_lt pe (effArrive tr) hne
    · have hcl := clampInt_mem pv 1 (N : Int) (by omega)
      omega
  · rw [← hpe]
    exact autoIdx_lt pe (effArrive tr) hne

/-- Unfolding one step of the assignment loop. -/
theorem assignLoop_cons (N : Nat) (es : List (Nat × Train)) (i : Nat) (tr : Train)
    (rest : List (Nat × Train)) (pe : List FreeAt) :
    assignLoop N es ((i, tr) :: rest) pe =
      ({ tr with assignedPlatform := some ((chooseIdx N es i tr pe : Int) + 1) } ::
          (assignLoop N es rest (updateFree pe (chooseIdx N es i tr pe) (effDepart tr))).1,
        (assignLoop N es rest (updateFree pe (chooseIdx N es i tr pe) (effDepart tr))).2) :=
  rfl

/-- A conflict-free manual request decides the index without reading the
free-at array. -/
theorem chooseIdx_manual (N : Nat) (es : List (Nat × Train)) (i : Nat) (tr : Train)
    (pe : List FreeAt) (pv : Int) (hp : tr.platform = some pv)
    (hc : manualConflict es i tr = false) :
    chooseIdx N es i tr pe = (clampInt pv 1 (N : Int) - 1).toNat := by
  unfold chooseIdx
  rw [hp]
  simp [hc]

/-- Every train the loop emits carries a platform number in `[1, N]`. -/
theorem assignLoop_bounds (N : Nat) (hN : 1 ≤ N) (es : List (Nat × Train)) :
    ∀ (l : List (Nat × Train)) (pe : List FreeAt), pe.length = N →
      ∀ t ∈ (assignLoop N es l pe).1,
        ∃ k : Int, t.assignedPlatform = some k ∧ 1 ≤ k ∧ k ≤ (N : Int)
  | [], pe, hpe, t, ht => by simp [assignLoop] at ht
  | (i, tr) :: rest, pe, hpe, t, ht => by
    rw [assignLoop_cons] at ht
    rcases List.mem_cons.mp ht with h | h
    · have hk := chooseIdx_lt N es i tr pe hpe hN
      refine ⟨(chooseIdx N es i tr pe : Int) + 1, ?_, by omega, by omega⟩
      rw [h]
    · exact assignLoop_bounds N hN es rest _ (by rw [updateFree_length, hpe]) t h

/-- The overlap test is symmetric in its two intervals. -/
theorem intervalsOverlap_symm (a b c d : Int) :
    intervalsOverlap a b c d = intervalsOverlap c d a b := by
  simp [intervalsOverlap, Bool.and_comm]

/-- `assignPlatforms` only fills in `assignedPlatform` on the sorted list. -/
theorem assignPlatforms_erase (trains : List Train) (N : Nat) :
    (assignPlatforms trains N).map eraseAssigned =
      (sortByKey effArrive trains).map eraseAssigned := by
  have h := assignLoop_erase N (withIdx 0 (sortByKey effArrive trains))
    (withIdx 0 (sortByKey effArrive trains)) (List.replicate N FreeAt.negInf)
  rw [withIdx_map_snd] at h
  exact h

/-! ## Claims -/

/-- Claim C8: `toHHMM` normalizes any integer argument (negatives included)
into `[0, 1440)` via the double modulo — so it agrees with the Euclidean
remainder and only depends on `n % 1440` — and formats the result as
zero-padded five-character `HH:MM`; in particular
`toHHMM (toMinutes "08:00") = "08:00"` and `toHHMM (-5) = "23:55"`. -/
theorem toHHMM_normalizes_and_formats :
    (∀ n : Int, Int.tmod (Int.tmod n (24 * 60) + 24 * 60) (24 * 60) = n % (24 * 60)) ∧
    (∀ n : Int, toHHMM n = toHHMM (n % (24 * 60))) ∧
    (∀ n : Int, (toHHMM n).length = 5) ∧
    toMinutes (Sum.inr "08:00") = some 480 ∧
    toHHMM 480 = "08:00" ∧
    toHHMM (-5) = "23:55" := by
  refine ⟨tmod_double_norm, ?_, toHHMM_length, by decide, by decide, by decide⟩
  intro n
  have h3 : n % (24 * 60) % (24 * 60) = n % (24 * 60) := by omega
  simp only [toHHMM]
  rw [tmod_double_norm, tmod_double_norm, h3]

/-- Claim C9 counterexample: after `clearAll` the announcement log is not
empty — clearing itself is announced, so exactly the clear announcement
remains. -/
theorem clearAll_announcements_nonempty :
    (clearAll (sampleStore [] ["old entry"])).announcements ≠ [] := by decide

/-- Claim C9 (amended): after `clearAll` returns, the train list is empty and
the announcement log holds exactly one entry, the timestamped clear
announcement (the bulk clear empties both lists, but `announce` then logs
"All trains cleared."). -/
theorem clearAll_empties_trains_single_announcement (st : Store) :
    (clearAll st).trains = [] ∧
    (clearAll st).announcements =
      ["[" ++ toHHMM st.virtualMinutes ++ "] " ++ "All trains cleared."] :=
  ⟨rfl, rfl⟩

/-- Claim C7: `updateTrain`, `delayTrain` and `cancelTrain` with an id absent
from the train list are silent no-ops: the whole store — trains,
announcements and settings — is returned unchanged. -/
theorem unknown_id_noop (st : Store) (id : String) (f : Train → Train) (m : Int)
    (h : ∀ t ∈ st.trains, t.id ≠ id) :
    updateTrain st id f = st ∧ delayTrain st id m = st ∧ cancelTrain st id = st := by
  have hf : findTrain st.trains id = none := by
    unfold findTrain
    rw [List.find?_eq_none]
    intro t ht
    simp [h t ht]
  refine ⟨?_, ?_, ?_⟩ <;> simp [updateTrain, delayTrain, cancelTrain, hf]

/-- Claim C7 witness: a concrete store with one train, probed with an unknown
id. -/
theorem unknown_id_noop_witness :
    updateTrain (sampleStore [sampleTrain "aa" "12001" Status.ON_TIME none 490 500 0] [])
        "zz" (fun t => { t with delayMin := 99 }) =
      sampleStore [sampleTrain "aa" "12001" Status.ON_TIME none 490 500 0] [] ∧
    delayTrain (sampleStore [sampleTrain "aa" "12001" Status.ON_TIME none 490 500 0] [])
        "zz" 5 =
      sampleStore [sampleTrain "aa" "12001" Status.ON_TIME none 490 500 0] [] ∧
    cancelTrain (sampleStore [sampleTrain "aa" "12001" Status.ON_TIME none 490 500 0] [])
        "zz" =
      sampleStore [sampleTrain "aa" "12001" Status.ON_TIME none 490 500 0] [] :=
  unknown_id_noop _ "zz" _ 5 (by decide)

/-- Claim C10: the assignment pass only writes the derived `assignedPlatform`
field — forgetting that field, its output is exactly the effective-arrival
sort of the input, which is itself a permutation of the input, so every other
field of every train record is unchanged. -/
theorem assignPlatforms_frame (trains : List Train) (N : Nat) :
    (assignPlatforms trains N).map eraseAssigned =
      (sortByKey effArrive trains).map eraseAssigned ∧
    (sortByKey effArrive trains).Perm trains :=
  ⟨assignPlatforms_erase trains N, sortByKey_perm effArrive trains⟩

/-- Claim C4: the assignment is total and range-bounded — with a nonempty
train list and at least one platform, every train of the assignment's output
carries an assigned platform number in `[1, N]`, even when trains outnumber
platforms. -/
theorem assigned_platform_in_range (trains : List Train) (N : Nat)
    (_hne : trains ≠ []) (hN : 1 ≤ N) :
    ∀ t ∈ assignPlatforms trains N,
      ∃ k : Int, t.assignedPlatform = some k ∧ 1 ≤ k ∧ k ≤ (N : Int) := by
  intro t ht
  unfold assignPlatforms assignPlatformsFull at ht
  exact assignLoop_bounds N hN _ _ _ (by simp) t ht

/-- Claim C4 witness: three trains on one platform all land on platform 1. -/
theorem assigned_platform_in_range_witness :
    ∃ k : Int,
      (Train.assignedPlatform
        { sampleTrain "a" "1" Status.ON_TIME none 490 500 0 with
            assignedPlatform := some 1 }) = some k ∧ 1 ≤ k ∧ k ≤ (1 : Int) :=
  assigned_platform_in_range
    [sampleTrain "a" "1" Status.ON_TIME none 490 500 0,
     sampleTrain "b" "2" Status.ON_TIME none 492 505 0,
     sampleTrain "c" "3" Status.ON_TIME none 494 510 0] 1
    (by decide) (by decide) _ (by decide)

/-- Claim C3: `CANCELLED` is absorbing under recomputation — the status
derivation leaves a cancelled train entirely untouched, and the rest of the
pass (platform assignment and display sort) only permutes the derived
statuses, so every cancelled train is still cancelled after `computeDerived`,
for every virtual minute, delay value and time window. -/
theorem cancelled_absorbing (vm : Int) (N : Nat) (trains : List Train) :
    (∀ tr : Train, tr.status = Status.CANCELLED → deriveStatus vm tr = tr) ∧
    ((computeDerived vm N trains).map Train.status).Perm
      ((trains.map (deriveStatus vm)).map Train.status) := by
  constructor
  · intro tr h
    simp [deriveStatus, h]
  · have hmap : ∀ l : List Train,
        l.map Train.status = (l.map eraseAssigned).map Train.status := by
      intro l
      rw [List.map_map]
      rfl
    have p1 : ((sortByKey effDepart
          (assignPlatforms (trains.map (deriveStatus vm)) N)).map Train.status).Perm
        ((assignPlatforms (trains.map (deriveStatus vm)) N).map Train.status) :=
      (sortByKey_perm effDepart _).map Train.status
    have e1 : (assignPlatforms (trains.map (deriveStatus vm)) N).map Train.status =
        (sortByKey effArrive (trains.map (deriveStatus vm))).map Train.status := by
      rw [hmap, assignPlatforms_erase, ← hmap]
    have p2 : ((sortByKey effArrive (trains.map (deriveStatus vm))).map Train.status).Perm
        ((trains.map (deriveStatus vm)).map Train.status) :=
      (sortByKey_perm effArrive _).map Train.status
    exact p1.trans (e1 ▸ p2)

/-- Claim C3 witness: a concrete cancelled train is untouched by the status
derivation. -/
theorem cancelled_absorbing_witness :
    deriveStatus 495 (sampleTrain "a" "1" Status.CANCELLED none 480 500 0) =
      sampleTrain "a" "1" Status.CANCELLED none 480 500 0 :=
  (cancelled_absorbing 495 6 []).1 _ rfl

/-- Claim C2: for every non-cancelled train and virtual minute, the derived
status is exactly the spec's first-match priority cascade evaluated on the
spec's effective window (`[arrive+delay, depart+delay]` while `DELAYED`, else
`[arrive, depart]`). -/
theorem deriveStatus_matches_spec (vm : Int) (tr : Train)
    (h : tr.status ≠ Status.CANCELLED) :
    (deriveStatus vm tr).status =
      specStatusRule vm (specEffectiveWindow tr).1 (specEffectiveWindow tr).2 tr.delayMin := by
  have hw : specEffectiveWindow tr = timeWithDelay tr := rfl
  rw [hw]
  unfold deriveStatus specStatusRule effArrive effDepart
  rw [if_neg h]

/-- Claim C2 witness: a concrete on-time train at a boarding-window minute. -/
theorem deriveStatus_matches_spec_witness :
    (deriveStatus 495 (sampleTrain "a" "1" Status.ON_TIME none 480 500 0)).status =
      specStatusRule 495
        (specEffectiveWindow (sampleTrain "a" "1" Status.ON_TIME none 480 500 0)).1
        (specEffectiveWindow (sampleTrain "a" "1" Status.ON_TIME none 480 500 0)).2
        (sampleTrain "a" "1" Status.ON_TIME none 480 500 0).delayMin :=
  deriveStatus_matches_spec 495 _ (by decide)

/-- Claim C5 counterexample: the claim fails at `vm = 500` — with
`arrive = 480`, `depart = 500` the `DEPARTED` test is `vm ≥ 505`, so
recomputation at `vm = 500` yields `BOARDING`, not `DEPARTED`; and a train
with the non-`DELAYED` prior status `CANCELLED` is left `CANCELLED` at
`vm = 495` rather than becoming `BOARDING`. -/
theorem boundary_exactness_cex :
    (sampleTrain "a" "1" Status.ON_TIME none 480 500 0).status ≠ Status.DELAYED ∧
    (deriveStatus 500 (sampleTrain "a" "1" Status.ON_TIME none 480 500 0)).status =
      Status.BOARDING ∧
    (deriveStatus 500 (sampleTrain "a" "1" Status.ON_TIME none 480 500 0)).status ≠
      Status.DEPARTED ∧
    (sampleTrain "a" "1" Status.CANCELLED none 480 500 0).status ≠ Status.DELAYED ∧
    (deriveStatus 495 (sampleTrain "a" "1" Status.CANCELLED none 480 500 0)).status ≠
      Status.BOARDING := by decide

/-- Claim C5 (amended): for a train with `arrive = 480`, `depart = 500`,
`delayMin = 0` and prior status neither `DELAYED` nor `CANCELLED`,
recomputation at `vm = 495` yields `BOARDING`, at `vm = 500` still
`BOARDING` (`DEPARTED` begins at `vm = 505 = depart + 5`), at `vm = 505`
`DEPARTED`, at `vm = 494` `ARRIVED`, and at `vm = 479` `ON_TIME`. -/
theorem boundary_exactness_amended (tr : Train) (ha : tr.arrive = 480)
    (hd : tr.depart = 500) (hdel : tr.delayMin = 0)
    (h1 : tr.status ≠ Status.DELAYED) (h2 : tr.status ≠ Status.CANCELLED) :
    (deriveStatus 495 tr).status = Status.BOARDING ∧
    (deriveStatus 500 tr).status = Status.BOARDING ∧
    (deriveStatus 505 tr).status = Status.DEPARTED ∧
    (deriveStatus 494 tr).status = Status.ARRIVED ∧
    (deriveStatus 479 tr).status = Status.ON_TIME := by
  have hw : timeWithDelay tr = (480, 500) := by
    unfold timeWithDelay
    rw [if_neg h1, ha, hd]
  refine ⟨?_, ?_, ?_, ?_, ?_⟩ <;>
    simp [deriveStatus, effArrive, effDepart, hw, if_neg h2, hdel]

/-- Claim C5 witness: the amended boundaries at a concrete on-time train. -/
theorem boundary_exactness_amended_witness :
    (deriveStatus 495 (sampleTrain "a" "1" Status.ON_TIME none 480 500 0)).status =
      Status.BOARDING ∧
    (deriveStatus 500 (sampleTrain "a" "1" Status.ON_TIME none 480 500 0)).status =
      Status.BOARDING ∧
    (deriveStatus 505 (sampleTrain "a" "1" Status.ON_TIME none 480 500 0)).status =
      Status.DEPARTED ∧
    (deriveStatus 494 (sampleTrain "a" "1" Status.ON_TIME none 480 500 0)).status =
      Status.ARRIVED ∧
    (deriveStatus 479 (sampleTrain "a" "1" Status.ON_TIME none 480 500 0)).status =
      Status.ON_TIME :=
  boundary_exactness_amended _ rfl rfl rfl (by decide) (by decide)

/-- Claim C1 counterexample: a single train whose manual request for
platform 1 is honoured (no conflicting request exists) — yet after the
assignment pass the free-at array differs from its initial value: the source
updates `platformEnd[assigned]` unconditionally, the manual-honour path
included. -/
theorem manual_honor_freeat_changed_cex :
    (sampleTrain "a" "1" Status.ON_TIME (some 1) 490 500 0).platform = some 1 ∧
    manualConflict (withIdx 0 [sampleTrain "a" "1" Status.ON_TIME (some 1) 490 500 0]) 0
      (sampleTrain "a" "1" Status.ON_TIME (some 1) 490 500 0) = false ∧
    (assignPlatformsFull [sampleTrain "a" "1" Status.ON_TIME (some 1) 490 500 0] 1).2 ≠
      List.replicate 1 FreeAt.negInf := by decide

/-- Claim C1 (amended): when a train's manual platform request is honoured
(no conflicting request), the free-at array plays no part in choosing the
platform — the clamped request alone does — but the array IS updated for that
train: the chosen platform's free-at entry becomes
`max(previous, effective departure)` before the remaining trains are
processed. -/
theorem manual_honor_updates_freeat (N : Nat) (es : List (Nat × Train)) (i : Nat)
    (tr : Train) (rest : List (Nat × Train)) (pe : List FreeAt) (pv : Int)
    (hp : tr.platform = some pv) (hc : manualConflict es i tr = false) :
    assignLoop N es ((i, tr) :: rest) pe =
      ({ tr with
          assignedPlatform := some (((clampInt pv 1 (N : Int) - 1).toNat : Int) + 1) } ::
          (assignLoop N es rest
            (updateFree pe (clampInt pv 1 (N : Int) - 1).toNat (effDepart tr))).1,
        (assignLoop N es rest
          (updateFree pe (clampInt pv 1 (N : Int) - 1).toNat (effDepart tr))).2) := by
  rw [assignLoop_cons, chooseIdx_manual N es i tr pe pv hp hc]

/-- Claim C1 witness: honouring a manual request for platform 1 on a fresh
one-platform array records departure minute 500 in the free-at array. -/
theorem manual_honor_updates_freeat_witness :
    (sampleTrain "a" "1" Status.ON_TIME (some 1) 490 500 0).platform = some 1 ∧
    manualConflict [(0, sampleTrain "a" "1" Status.ON_TIME (some 1) 490 500 0)] 0
      (sampleTrain "a" "1" Status.ON_TIME (some 1) 490 500 0) = false ∧
    (assignLoop 1 [(0, sampleTrain "a" "1" Status.ON_TIME (some 1) 490 500 0)]
        [(0, sampleTrain "a" "1" Status.ON_TIME (some 1) 490 500 0)]
        [FreeAt.negInf]).2 = [FreeAt.fin 500] := by
  refine ⟨rfl, by decide, ?_⟩
  rw [manual_honor_updates_freeat 1 _ 0 _ [] [FreeAt.negInf] 1 rfl (by decide)]
  decide

/-- Claim C6: a two-train list in which both trains manually request
platform 2 with non-overlapping effective windows, with at least two
platforms, ends the assignment pass with both trains on platform 2. -/
theorem manual_pair_both_honored (t1 t2 : Train) (N : Nat) (hN : 2 ≤ N)
    (h1 : t1.platform = some 2) (h2 : t2.platform = some 2)
    (hov : intervalsOverlap (effArrive t1) (effDepart t1) (effArrive t2) (effDepart t2)
      = false) :
    (assignPlatforms [t1, t2] N).map Train.assignedPlatform = [some 2, some 2] := by
  have hov2 : intervalsOverlap (effArrive t2) (effDepart t2) (effArrive t1) (effDepart t1)
      = false := by rw [intervalsOverlap_symm]; exact hov
  have hcl : clampInt 2 1 (N : Int) = 2 := by
    have hmin : min (N : Int) 2 = 2 := min_eq_right (by exact_mod_cast hN)
    unfold clampInt
    rw [hmin]
    decide
  by_cases hlt : effArrive t2 < effArrive t1
  · have hs : sortByKey effArrive [t1, t2] = [t2, t1] := by
      simp [sortByKey, insertKey, hlt]
    have hcA : manualConflict [(0, t2), (1, t1)] 0 t2 = false := by
      simp [manualConflict, h1, h2, hov]
    have hcB : manualConflict [(0, t2), (1, t1)] 1 t1 = false := by
      simp [manualConflict, h1, h2, hov2]
    simp only [assignPlatforms, assignPlatformsFull, hs, withIdx]
    rw [assignLoop_cons, chooseIdx_manual N _ 0 t2 _ 2 h2 hcA]
    rw [assignLoop_cons, chooseIdx_manual N _ 1 t1 _ 2 h1 hcB]
    simp [assignLoop, hcl]
  · have hs : sortByKey effArrive [t1, t2] = [t1, t2] := by
      simp [sortByKey, insertKey, hlt]
    have hcA : manualConflict [(0, t1), (1, t2)] 0 t1 = false := by
      simp [manualConflict, h1, h2, hov2]
    have hcB : manualConflict [(0, t1), (1, t2)] 1 t2 = false := by
      simp [manualConflict, h1, h2, hov]
    simp only [assignPlatforms, assignPlatformsFull, hs, withIdx]
    rw [assignLoop_cons, chooseIdx_manual N _ 0 t1 _ 2 h1 hcA]
    rw [assignLoop_cons, chooseIdx_manual N _ 1 t2 _ 2 h2 hcB]
    simp [assignLoop, hcl]

/-- Claim C6 witness: two concrete trains both requesting platform 2 with
disjoint windows on six platforms. -/
theorem manual_pair_both_honored_witness :
    (assignPlatforms
        [sampleTrain "a" "1" Status.ON_TIME (some 2) 490 500 0,
         sampleTrain "b" "2" Status.ON_TIME (some 2) 505 515 0] 6).map
      Train.assignedPlatform = [some 2, some 2] :=
  manual_pair_both_honored _ _ 6 (by decide) rfl rfl (by decide)
